import Mathlib

/-!
Verification of the snapcraft repository's natural-language specification
against a shallow embedding of its source code.

The embedding covers:
* `snapcraft/internal/repo/apt_stage_cache_db.py` (the persisted apt
  stage-package cache `AptStageCacheDb`);
* `snapcraft/providers/executed.py` (`SnapcraftExecutedProvider`:
  environment setup and `clean`);
* `snapcraft/plugins/cmake.py` and `snapcraft/plugins/colcon.py`
  (declared dirtiness-fingerprint properties);
* `snapcraft/project/errors.py` (`SnapcraftAfterPartMissingError`) together
  with a spec-modelled dependency-graph builder;
* a spec-modelled lifecycle engine (dirtiness evaluator and step runner),
  whose implementation is not part of the provided sources.
-/

namespace Snapcraft

/-! ## Apt stage cache db (`apt_stage_cache_db.py`) -/

/-- `DebPackage` from `apt_cache.py`, as used by the cache db: an opaque
record of name, version and path.  Only carried through the cache, never
inspected by it. -/
structure DebPackage where
  name : String
  version : String
  path : String
deriving DecidableEq, Repr

/-- `AptStageCacheDbEntry`: one cached result, keyed by the pair of the
`package_names` set and the `filtered_names` set. -/
structure AptStageCacheDbEntry where
  package_names : Finset String
  filtered_names : Finset String
  packages : List DebPackage
deriving DecidableEq

/-- One item of the pickled value: either a well-formed entry or something
that fails the `isinstance(result, AptStageCacheDbEntry)` sanity check. -/
inductive DbItem where
  | entry (e : AptStageCacheDbEntry)
  | junk
deriving DecidableEq

/-- The on-disk state of `snapcraft-pickle.db`:
* `absent` — file does not exist (`FileNotFoundError`);
* `unreadable` — `pickle.load` raises `pickle.UnpicklingError`;
* `notASet` — unpickles, but the value is not a `set`;
* `setOf items` — unpickles to a set of items, each either a well-formed
  entry or junk. -/
inductive DbFile where
  | absent
  | unreadable
  | notASet
  | setOf (items : List DbItem)
deriving DecidableEq

/-- Extract the well-formed entries of a list of items, valid only when no
item is junk. -/
def DbItem.entries (items : List DbItem) : List AptStageCacheDbEntry :=
  items.filterMap fun
    | .entry e => some e
    | .junk => none

/-- True when some item fails the `isinstance` sanity check. -/
def DbItem.anyJunk (items : List DbItem) : Bool :=
  items.any fun
    | .entry _ => false
    | .junk => true

/-- `AptStageCacheDb._load`: returns the set of entries and the file state
after the call (the file is purged on an unpickling error and when the
format sanity check fails). -/
def load : DbFile → List AptStageCacheDbEntry × DbFile
  | .absent => ([], .absent)
  | .unreadable => ([], .absent)
  | .notASet => ([], .absent)
  | .setOf items =>
      if DbItem.anyJunk items then ([], .absent)
      else (DbItem.entries items, .setOf items)

/-- Whether an entry carries the given (`package_names`, `filtered_names`)
key, as compared by `find` and `insert`. -/
def entryMatches (pn fn : Finset String) (e : AptStageCacheDbEntry) : Bool :=
  e.package_names = pn ∧ e.filtered_names = fn

/-- `AptStageCacheDb.find`: load the db and return the packages of the
first entry whose key equals the query, or `none`. -/
def find (file : DbFile) (pn fn : Finset String) : Option (List DebPackage) :=
  ((load file).1.find? (entryMatches pn fn)).map AptStageCacheDbEntry.packages

/-- `AptStageCacheDb.insert`: load the db; if an entry with the same key
exists, clear the db; add the new entry; save. -/
def insert (file : DbFile) (pn fn : Finset String) (pkgs : List DebPackage) :
    DbFile :=
  let entries := (load file).1
  let entries := if entries.any (entryMatches pn fn) then [] else entries
  .setOf ((.entry ⟨pn, fn, pkgs⟩ :: entries.map DbItem.entry))

/-- The (`package_names`, `filtered_names`) key of a cache entry. -/
def keyOf (e : AptStageCacheDbEntry) : Finset String × Finset String :=
  (e.package_names, e.filtered_names)

/-- Entries carry pairwise distinct keys. -/
def uniqueKeys (es : List AptStageCacheDbEntry) : Prop :=
  es.Pairwise (fun a b => keyOf a ≠ keyOf b)

/-- A sequence of `insert` operations folded over a starting file state. -/
def insertAll
    (ops : List (Finset String × Finset String × List DebPackage))
    (file : DbFile) : DbFile :=
  ops.foldl (fun f op => insert f op.1 op.2.1 op.2.2) file

/-! ## Executed provider (`providers/executed.py`) -/

/-- One observable action taken against the execution environment by
`SnapcraftExecutedProvider`: a command run inside the environment, a
bind-mount of a host path, or a file sync from host into the
environment. -/
inductive EnvAction where
  | run (cmd : List String)
  | mount (source destination : String)
  | syncTo (source destination : String)
deriving DecidableEq, Repr

/-- `SnapcraftExecutedProvider._setup_environment_project`: create the
project and artifacts directories, then either bind-mount the host project
directory (when the executor supports mounting and project bind-mounting is
enabled) or sync it into the environment. -/
def setup_environment_project (supports_mount bind_mount_project : Bool)
    (host_project_dir env_project_dir env_artifacts_dir : String) :
    List EnvAction :=
  [.run ["mkdir", "-p", env_project_dir],
   .run ["mkdir", "-p", env_artifacts_dir]] ++
  (if supports_mount && bind_mount_project then
    [.mount host_project_dir env_project_dir]
  else
    [.syncTo host_project_dir env_project_dir])

/-- Observable outcome of `SnapcraftExecutedProvider.clean`: the returned
code, the commands run inside the environment, and whether the environment
was torn down. -/
structure CleanOutcome where
  returnCode : Int
  commands : List (List String)
  tornDown : Bool
deriving DecidableEq, Repr

/-- `SnapcraftExecutedProvider.clean`, parametrised by whether the build
environment exists and by the return code the executor's `run` yields for a
command.  Mirrors the source: return 0 when the environment does not exist;
run `snapcraft clean <parts>` when parts are given; otherwise tear the
environment down and return 0. -/
def clean (env_exists : Bool) (parts : List String)
    (run_rc : List String → Int) : CleanOutcome :=
  if !env_exists then ⟨0, [], false⟩
  else if !parts.isEmpty then
    ⟨run_rc (["snapcraft", "clean"] ++ parts),
     [["snapcraft", "clean"] ++ parts], false⟩
  else ⟨0, [], true⟩

/-! ## Plugin fingerprint properties (`plugins/cmake.py`, `plugins/colcon.py`) -/

/-- `CMakePlugin.get_build_properties`:
`super().get_build_properties() + ["configflags"]`, parametrised by the
inherited base-class list. -/
def cmakePlugin_get_build_properties (inherited : List String) : List String :=
  inherited ++ ["configflags"]

/-- `ColconPlugin.get_pull_properties`. -/
def colconPlugin_get_pull_properties : List String :=
  ["colcon-packages", "colcon-source-space", "colcon-rosdistro"]

/-- `ColconPlugin.get_build_properties`. -/
def colconPlugin_get_build_properties : List String :=
  ["colcon-cmake-args", "colcon-catkin-cmake-args",
   "colcon-ament-cmake-args", "colcon-packages-ignore"]

/-! ## Dependency graph construction (`project/errors.py` + spec model) -/

/-- A part as the dependency-graph builder sees it: a name and the list of
part names it is declared `after`. -/
structure Part where
  name : String
  after : List String
deriving DecidableEq, Repr

/-- `SnapcraftAfterPartMissingError` from `project/errors.py`: carries the
name of the part that required the dependency and the name of the missing
`after` part. -/
inductive GraphBuildError where
  | afterPartMissing (part_name after_part_name : String)
deriving DecidableEq, Repr

/-- Modelled from the spec: the dependency-graph builder itself is not in
the provided sources (only the error class `SnapcraftAfterPartMissingError`
is); per spec 4.1, `build(parts)` fails, before any step executes, with an
error naming the missing part and the part that required it when some
part's `after` list references a part not present in the manifest. -/
def build_graph (parts : List Part) : Except GraphBuildError (List Part) :=
  match parts.findSome? (fun p =>
      (p.after.find? (fun a => !(parts.map Part.name).contains a)).map
        (fun a => (p.name, a))) with
  | some pair => .error (.afterPartMissing pair.1 pair.2)
  | none => .ok parts

/-! ## Lifecycle engine (spec model, sections 4.2 and 4.3 of the spec) -/

/-- Modelled from the spec: the lifecycle steps PULL, BUILD, STAGE, PRIME
in their fixed total order.  The lifecycle engine implementation
(`snapcraft.internal.lifecycle._runner` and the dirtiness evaluator) is not
in the provided sources. -/
inductive Step where
  | pull
  | build
  | stage
  | prime
deriving DecidableEq, Repr

/-- The steps from PULL up to and including the given step, in order. -/
def stepsUpTo : Step → List Step
  | .pull => [.pull]
  | .build => [.pull, .build]
  | .stage => [.pull, .build, .stage]
  | .prime => [.pull, .build, .stage, .prime]

/-- Dirtiness verdict of the evaluator (spec 4.2). -/
inductive StepStatus where
  | clean
  | dirty
  | notRun
deriving DecidableEq, Repr

/-- Persisted step state: for each part name and step, the recorded
fingerprint of the inputs that produced the current output, if any. -/
def Store : Type := String → Step → Option Nat

/-- Fingerprint of the current inputs of each (part, step). -/
def Fingerprint : Type := String → Step → Nat

/-- Modelled from the spec (4.2): the verdict considering only the record
of (part, step): NOT_RUN when no prior state exists, DIRTY when the
recorded fingerprint differs from the current one, CLEAN otherwise. -/
def matchStatus (store : Store) (fp : Fingerprint) (p : String)
    (s : Step) : StepStatus :=
  match store p s with
  | none => .notRun
  | some h => if h = fp p s then .clean else .dirty

/-- Combine a step's own record verdict with the verdict of its
predecessor chain: a step with a prior record is DIRTY when any earlier
step of the same part is not CLEAN. -/
def combinePrev (own prev : StepStatus) : StepStatus :=
  match own with
  | .notRun => .notRun
  | .dirty => .dirty
  | .clean => if prev = .clean then .clean else .dirty

/-- Verdict of a chain of steps of one part, folded from PULL upward. -/
def statusOfChain (store : Store) (fp : Fingerprint) (p : String)
    (steps : List Step) : StepStatus :=
  steps.foldl (fun prev s => combinePrev (matchStatus store fp p s) prev)
    .clean

/-- Modelled from the spec (4.2): a part's own verdict at a step, taking
the whole predecessor chain of that part into account. -/
def selfStatus (store : Store) (fp : Fingerprint) (p : String)
    (s : Step) : StepStatus :=
  statusOfChain store fp p (stepsUpTo s)

/-- STAGE and PRIME merge per-part outputs into a shared tree. -/
def mergeSensitive (s : Step) : Bool :=
  s = Step.stage || s = Step.prime

/-- Modelled from the spec (4.2, conservative merge rule of 9): the full
evaluator verdict; a CLEAN verdict at STAGE or PRIME is downgraded to DIRTY
when any other part is not CLEAN at or below that merge step. -/
def evaluate (parts : List String) (store : Store) (fp : Fingerprint)
    (p : String) (s : Step) : StepStatus :=
  match selfStatus store fp p s with
  | .clean =>
      if mergeSensitive s &&
          parts.any (fun q => q ≠ p && selfStatus store fp q s ≠ .clean) then
        .dirty
      else .clean
  | st => st

/-- Overwrite the persisted record of one (part, step). -/
def updateStore (store : Store) (p : String) (s : Step) (v : Nat) : Store :=
  fun q t => if q = p ∧ t = s then some v else store q t

/-- Modelled from the spec (4.3): process one (part, step): skip when the
evaluator reports CLEAN, otherwise invoke the Build Strategy (counted) and
persist the fingerprint of the current inputs. -/
def runStepFor (parts : List String) (fp : Fingerprint)
    (acc : Store × Nat) (p : String) (s : Step) : Store × Nat :=
  if evaluate parts acc.1 fp p s = .clean then acc
  else (updateStore acc.1 p s (fp p s), acc.2 + 1)

/-- Process every step from PULL up to the requested step for one part. -/
def runPart (parts : List String) (fp : Fingerprint) (acc : Store × Nat)
    (p : String) (upTo : Step) : Store × Nat :=
  (stepsUpTo upTo).foldl (fun a s => runStepFor parts fp a p s) acc

/-- Modelled from the spec (4.3): `run(requested_step)` over the parts in
their (already topologically ordered) list: for each part in order, for
each step from PULL up to the requested step, consult the evaluator and
execute and persist when not CLEAN.  Returns the updated store and the
number of Build Strategy invocations. -/
def run (parts : List String) (fp : Fingerprint) (store : Store)
    (upTo : Step) : Store × Nat :=
  parts.foldl (fun a p => runPart parts fp a p upTo) (store, 0)

/-- The record of (part, step) equals the fingerprint of its current
inputs — the precondition for the step being skippable. -/
def goodAt (store : Store) (fp : Fingerprint) (p : String) (s : Step) :
    Prop :=
  store p s = some (fp p s)

/-! ## Theorems -/

theorem entries_map_entry (es : List AptStageCacheDbEntry) :
    DbItem.entries (es.map DbItem.entry) = es := by
  induction es with
  | nil => rfl
  | cons e es ih => simpa [DbItem.entries] using ih

theorem anyJunk_map_entry (es : List AptStageCacheDbEntry) :
    DbItem.anyJunk (es.map DbItem.entry) = false := by
  induction es with
  | nil => rfl
  | cons e es ih => simp only [List.map_cons, DbItem.anyJunk, List.any_cons] at ih ⊢; exact ih

/-- A saved file made purely of well-formed entries loads to exactly those
entries, without purging. -/
theorem load_setOf_entries (es : List AptStageCacheDbEntry) :
    load (.setOf (es.map DbItem.entry)) = (es, .setOf (es.map DbItem.entry)) := by
  simp [load, anyJunk_map_entry, entries_map_entry]

/-- Loading the file produced by `insert` yields the new entry followed by
the retained old entries. -/
theorem load_insert (file : DbFile) (pn fn : Finset String)
    (pkgs : List DebPackage) :
    (load (insert file pn fn pkgs)).1 =
      ⟨pn, fn, pkgs⟩ ::
        (if ((load file).1.any (entryMatches pn fn)) then []
         else (load file).1) := by
  have h := load_setOf_entries
    (⟨pn, fn, pkgs⟩ ::
      (if ((load file).1.any (entryMatches pn fn)) then []
       else (load file).1))
  simpa [insert] using congrArg Prod.fst h

theorem entryMatches_self (pn fn : Finset String) (pkgs : List DebPackage) :
    entryMatches pn fn ⟨pn, fn, pkgs⟩ = true := by
  simp [entryMatches]

/-- The core round-trip fact: `find` right after `insert`, with the same
key, returns the freshly inserted packages, for every prior file state. -/
theorem find_insert_self (file : DbFile) (pn fn : Finset String)
    (pkgs : List DebPackage) :
    find (insert file pn fn pkgs) pn fn = some pkgs := by
  unfold find
  rw [load_insert, List.find?_cons_of_pos _ (entryMatches_self pn fn pkgs)]
  rfl

/-- C2: Round-trip of the package cache: for every package_names set,
filtered_names set, and packages list (and every prior store state), after
`insert(package_names, filtered_names, packages)` a `find` with equal
`package_names` and `filtered_names` returns exactly the inserted packages
list. -/
theorem insert_find_roundtrip (file : DbFile) (pn fn : Finset String)
    (pkgs : List DebPackage) :
    find (insert file pn fn pkgs) pn fn = some pkgs :=
  find_insert_self file pn fn pkgs

/-- C8: Cache miss yields none, never an error: whenever no loaded entry
carries the queried (`package_names`, `filtered_names`) key — in particular
on an empty or absent store — `find` returns `none`. -/
theorem find_miss_none (file : DbFile) (pn fn : Finset String)
    (h : ∀ e ∈ (load file).1,
      ¬(e.package_names = pn ∧ e.filtered_names = fn)) :
    find file pn fn = none := by
  unfold find
  rw [List.find?_eq_none.mpr]
  · rfl
  · intro e he
    simp only [entryMatches, Bool.not_eq_true, decide_eq_false_iff_not]
    exact h e he

/-- C8 witness: `find` on an absent store returns `none`. -/
theorem find_miss_none_witness :
    find DbFile.absent {"foo"} {"filtered"} = none :=
  find_miss_none DbFile.absent {"foo"} {"filtered"} (by simp [load])

/-- C1: a corrupt or unreadable underlying db is never fatal: `find` on a
file that fails to unpickle, or whose value is not a set, or whose entries
fail the format sanity check, returns `none` rather than raising, and a
subsequent `insert` still succeeds (the round-trip then finds the new
entry). -/
theorem corrupt_db_recovered (pn fn : Finset String)
    (pkgs : List DebPackage) (items : List DbItem) :
    find DbFile.unreadable pn fn = none ∧
    find DbFile.notASet pn fn = none ∧
    (DbItem.anyJunk items = true → find (DbFile.setOf items) pn fn = none) ∧
    find (insert DbFile.unreadable pn fn pkgs) pn fn = some pkgs ∧
    (DbItem.anyJunk items = true →
      find (insert (DbFile.setOf items) pn fn pkgs) pn fn = some pkgs) :=
  ⟨rfl, rfl,
   fun h => by simp [find, load, h],
   find_insert_self DbFile.unreadable pn fn pkgs,
   fun _ => find_insert_self (DbFile.setOf items) pn fn pkgs⟩

/-- C1 witness: a db file holding one junk item is recovered from
locally. -/
theorem corrupt_db_recovered_witness :
    DbItem.anyJunk [DbItem.junk] = true ∧
    find (DbFile.setOf [DbItem.junk]) {"foo"} {"filtered"} = none ∧
    find (insert (DbFile.setOf [DbItem.junk]) {"foo"} {"filtered"}
      [⟨"fake-name", "1.0", "/fake-path"⟩]) {"foo"} {"filtered"} =
      some [⟨"fake-name", "1.0", "/fake-path"⟩] :=
  ⟨by decide,
   (corrupt_db_recovered {"foo"} {"filtered"}
     [⟨"fake-name", "1.0", "/fake-path"⟩] [DbItem.junk]).2.2.1 (by decide),
   (corrupt_db_recovered {"foo"} {"filtered"}
     [⟨"fake-name", "1.0", "/fake-path"⟩] [DbItem.junk]).2.2.2.2 (by decide)⟩

/-- C3 counterexample: inserting for a key that is already present clears
the whole db, so a record under a different key that was present before the
insert is gone afterwards: with entries for keys ({a}, ∅) and ({b}, ∅),
inserting for ({a}, ∅) changes what `find ({b}, ∅)` returns. -/
theorem insert_frame_counterexample :
    ¬ (find (insert (DbFile.setOf
        [.entry ⟨{"a"}, ∅, []⟩, .entry ⟨{"b"}, ∅, [⟨"n", "1", "/p"⟩]⟩])
        {"a"} ∅ [⟨"m", "2", "/q"⟩]) {"b"} ∅ =
      find (DbFile.setOf
        [.entry ⟨{"a"}, ∅, []⟩, .entry ⟨{"b"}, ∅, [⟨"n", "1", "/p"⟩]⟩])
        {"b"} ∅) := by decide

/-- C3 (amended): after `insert` for a key, `find` for that key returns the
new result; records for other keys are unchanged when no entry with the
inserted key was present before; when one was present, the whole store is
cleared before the new entry is added, so every other key maps to `none`
afterwards. -/
theorem insert_point_overwrite_amended (file : DbFile)
    (pn fn pn' fn' : Finset String) (pkgs : List DebPackage) :
    find (insert file pn fn pkgs) pn fn = some pkgs ∧
    ((load file).1.any (entryMatches pn fn) = false →
      ¬(pn' = pn ∧ fn' = fn) →
      find (insert file pn fn pkgs) pn' fn' = find file pn' fn') ∧
    ((load file).1.any (entryMatches pn fn) = true →
      ¬(pn' = pn ∧ fn' = fn) →
      find (insert file pn fn pkgs) pn' fn' = none) := by
  refine ⟨find_insert_self file pn fn pkgs, ?_, ?_⟩
  · intro hany hk
    unfold find
    rw [load_insert]
    simp only [hany, Bool.false_eq_true, if_false]
    rw [List.find?_cons_of_neg]
    intro hm
    simp only [entryMatches, decide_eq_true_eq] at hm
    exact hk ⟨hm.1.symm, hm.2.symm⟩
  · intro hany hk
    unfold find
    rw [load_insert]
    simp only [hany, if_true]
    rw [List.find?_cons_of_neg, List.find?_nil]
    · rfl
    · intro hm
      simp only [entryMatches, decide_eq_true_eq] at hm
      exact hk ⟨hm.1.symm, hm.2.symm⟩

/-- C3 (amended) witness: a point insert into an absent store, read back
at the inserted key and at an untouched key. -/
theorem insert_point_overwrite_amended_witness :
    find (insert DbFile.absent {"a"} ∅ [⟨"m", "2", "/q"⟩]) {"a"} ∅ =
      some [⟨"m", "2", "/q"⟩] ∧
    find (insert DbFile.absent {"a"} ∅ [⟨"m", "2", "/q"⟩]) {"b"} ∅ =
      find DbFile.absent {"b"} ∅ :=
  ⟨(insert_point_overwrite_amended DbFile.absent {"a"} ∅ {"b"} ∅
      [⟨"m", "2", "/q"⟩]).1,
   (insert_point_overwrite_amended DbFile.absent {"a"} ∅ {"b"} ∅
      [⟨"m", "2", "/q"⟩]).2.1 (by decide) (by decide)⟩

/-- An insert preserves pairwise-distinct keys of the loaded entries. -/
theorem uniqueKeys_insert (file : DbFile) (pn fn : Finset String)
    (pkgs : List DebPackage) (h : uniqueKeys (load file).1) :
    uniqueKeys (load (insert file pn fn pkgs)).1 := by
  unfold uniqueKeys
  rw [load_insert]
  cases hany : (load file).1.any (entryMatches pn fn) with
  | true => simp [hany]
  | false =>
    simp only [hany, Bool.false_eq_true, if_false]
    refine List.Pairwise.cons ?_ h
    intro e he heq
    apply List.any_eq_false.mp hany e he
    simp only [keyOf, Prod.mk.injEq] at heq
    simp [entryMatches, heq.1, heq.2]

/-- Any sequence of inserts preserves pairwise-distinct keys. -/
theorem uniqueKeys_insertAll
    (ops : List (Finset String × Finset String × List DebPackage))
    (file : DbFile) (h : uniqueKeys (load file).1) :
    uniqueKeys (load (insertAll ops file)).1 := by
  induction ops generalizing file with
  | nil => exact h
  | cons op rest ih =>
    exact ih (insert file op.1 op.2.1 op.2.2)
      (uniqueKeys_insert file op.1 op.2.1 op.2.2 h)

/-- Under pairwise-distinct keys, `find?` locates exactly the entry that
carries the queried key. -/
theorem find?_of_uniqueKeys (pn fn : Finset String)
    (es : List AptStageCacheDbEntry) (h : uniqueKeys es)
    (e : AptStageCacheDbEntry) (he : e ∈ es)
    (hm : entryMatches pn fn e = true) :
    es.find? (entryMatches pn fn) = some e := by
  induction es with
  | nil => cases he
  | cons a t ih =>
    rcases List.mem_cons.mp he with rfl | ht
    · exact List.find?_cons_of_pos _ hm
    · have hpair := List.pairwise_cons.mp h
      have ha : ¬ entryMatches pn fn a = true := by
        intro hfa
        apply hpair.1 e ht
        simp only [entryMatches, decide_eq_true_eq] at hm hfa
        simp [keyOf, hm.1, hm.2, hfa.1, hfa.2]
      rw [List.find?_cons_of_neg _ ha]
      exact ih hpair.2 ht

/-- C9: starting from an empty store, after any sequence of inserts the
loaded entries carry pairwise distinct (`package_names`, `filtered_names`)
keys, and `find`'s result is uniquely determined by its key arguments: any
loaded entry carrying the queried key yields exactly `find`'s answer. -/
theorem insert_unique_keys_invariant
    (ops : List (Finset String × Finset String × List DebPackage)) :
    uniqueKeys (load (insertAll ops DbFile.absent)).1 ∧
    ∀ pn fn : Finset String, ∀ e ∈ (load (insertAll ops DbFile.absent)).1,
      e.package_names = pn → e.filtered_names = fn →
      find (insertAll ops DbFile.absent) pn fn = some e.packages := by
  have hu := uniqueKeys_insertAll ops DbFile.absent
    (by simp [load, uniqueKeys])
  refine ⟨hu, ?_⟩
  intro pn fn e he h1 h2
  unfold find
  rw [find?_of_uniqueKeys pn fn _ hu e he (by simp [entryMatches, h1, h2])]
  rfl

/-- C9 witness: a one-insert history, read back at its key. -/
theorem insert_unique_keys_invariant_witness :
    uniqueKeys
      (load (insertAll [({"a"}, ∅, [⟨"n", "1", "/p"⟩])] DbFile.absent)).1 ∧
    find (insertAll [({"a"}, ∅, [⟨"n", "1", "/p"⟩])] DbFile.absent)
      {"a"} ∅ = some [⟨"n", "1", "/p"⟩] :=
  ⟨(insert_unique_keys_invariant [({"a"}, ∅, [⟨"n", "1", "/p"⟩])]).1,
   (insert_unique_keys_invariant [({"a"}, ∅, [⟨"n", "1", "/p"⟩])]).2
     {"a"} ∅ ⟨{"a"}, ∅, [⟨"n", "1", "/p"⟩]⟩ (by decide) rfl rfl⟩

/-- C4: during environment setup of the project directory, the host
project directory is bind-mounted into the environment exactly when the
executor advertises mount support and project bind-mounting is enabled,
and it is copied in via `sync_to` exactly otherwise — syncing is skipped
for that path pair whenever the mount is used. -/
theorem setup_project_mount_iff (sm bmp : Bool)
    (host env art : String) :
    (EnvAction.mount host env ∈
        setup_environment_project sm bmp host env art ↔
      (sm = true ∧ bmp = true)) ∧
    (EnvAction.syncTo host env ∈
        setup_environment_project sm bmp host env art ↔
      ¬(sm = true ∧ bmp = true)) := by
  cases sm <;> cases bmp <;> simp [setup_environment_project]

/-- C10: `SnapcraftExecutedProvider.clean`: when the build environment
does not exist, return 0 with no command executed and no teardown; when it
exists and parts are given, run exactly `snapcraft clean <parts>` inside
the environment with no teardown; when it exists and no parts are given,
tear the environment down and return 0. -/
theorem clean_cases (env_exists : Bool) (parts : List String)
    (run_rc : List String → Int) :
    (env_exists = false → clean env_exists parts run_rc = ⟨0, [], false⟩) ∧
    (env_exists = true → parts ≠ [] →
      clean env_exists parts run_rc =
        ⟨run_rc (["snapcraft", "clean"] ++ parts),
         [["snapcraft", "clean"] ++ parts], false⟩) ∧
    (env_exists = true → parts = [] →
      clean env_exists parts run_rc = ⟨0, [], true⟩) := by
  refine ⟨?_, ?_, ?_⟩
  · intro h; subst h; rfl
  · intro h hp; subst h
    simp [clean, List.isEmpty_iff, hp]
  · intro h hp; subst h; subst hp; rfl

/-- C10 witness: the three `clean` branches at concrete inputs. -/
theorem clean_cases_witness :
    clean false ["mypart"] (fun _ => 7) = ⟨0, [], false⟩ ∧
    clean true ["mypart"] (fun _ => 7) =
      ⟨7, [["snapcraft", "clean", "mypart"]], false⟩ ∧
    clean true [] (fun _ => 7) = ⟨0, [], true⟩ :=
  ⟨(clean_cases false ["mypart"] (fun _ => 7)).1 rfl,
   (clean_cases true ["mypart"] (fun _ => 7)).2.1 rfl (by simp),
   (clean_cases true [] (fun _ => 7)).2.2 rfl rfl⟩

/-- C6: the declared fingerprint properties: the CMake strategy's build
properties are exactly the inherited base properties plus `configflags`,
and the colcon strategy's pull properties are exactly `colcon-packages`,
`colcon-source-space` and `colcon-rosdistro`. -/
theorem declared_fingerprint_properties (inherited : List String) :
    (∀ prop : String,
      prop ∈ cmakePlugin_get_build_properties inherited ↔
        (prop ∈ inherited ∨ prop = "configflags")) ∧
    colconPlugin_get_pull_properties =
      ["colcon-packages", "colcon-source-space", "colcon-rosdistro"] := by
  refine ⟨?_, rfl⟩
  intro prop
  simp [cmakePlugin_get_build_properties]

/-- C7: building the dependency graph from a part set in which some part's
`after` list references a part not present in the manifest fails (before
any step executes — the builder is a pure precheck) with an error naming
the missing part and the part that required it. -/
theorem build_graph_missing_after (parts : List Part)
    (h : ∃ p ∈ parts, ∃ a ∈ p.after, a ∉ parts.map Part.name) :
    ∃ pname aname,
      build_graph parts = .error (.afterPartMissing pname aname) ∧
      aname ∉ parts.map Part.name ∧
      ∃ p ∈ parts, p.name = pname ∧ aname ∈ p.after := by
  cases hfs : parts.findSome? (fun p =>
      (p.after.find? (fun a => !(parts.map Part.name).contains a)).map
        (fun a => (p.name, a))) with
  | none =>
    exfalso
    obtain ⟨p, hp, a, ha, hna⟩ := h
    have h1 := List.findSome?_eq_none_iff.mp hfs p hp
    rw [Option.map_eq_none'] at h1
    have h2 := List.find?_eq_none.mp h1 a ha
    exact hna (by simpa using h2)
  | some pair =>
    obtain ⟨p, hp, hf⟩ := List.exists_of_findSome?_eq_some hfs
    rw [Option.map_eq_some'] at hf
    obtain ⟨a, hfind, hpair⟩ := hf
    refine ⟨pair.1, pair.2, by unfold build_graph; rw [hfs], ?_, p, hp, ?_, ?_⟩
    · have h3 := List.find?_some hfind
      have ha_not : a ∉ parts.map Part.name := by simpa using h3
      rw [← hpair]
      exact ha_not
    · rw [← hpair]
    · rw [← hpair]
      exact List.mem_of_find?_eq_some hfind

/-- C7 witness: a single part whose `after` references an absent part. -/
theorem build_graph_missing_after_witness :
    ∃ pname aname,
      build_graph [⟨"app", ["lib"]⟩] =
        .error (.afterPartMissing pname aname) ∧
      aname ∉ ([⟨"app", ["lib"]⟩] : List Part).map Part.name ∧
      ∃ p ∈ ([⟨"app", ["lib"]⟩] : List Part),
        p.name = pname ∧ aname ∈ p.after :=
  build_graph_missing_after [⟨"app", ["lib"]⟩]
    ⟨⟨"app", ["lib"]⟩, by simp, "lib", by simp, by simp⟩

theorem matchStatus_clean_iff (store : Store) (fp : Fingerprint)
    (p : String) (s : Step) :
    matchStatus store fp p s = .clean ↔ goodAt store fp p s := by
  unfold matchStatus goodAt
  cases hx : store p s with
  | none => simp
  | some v =>
    by_cases hv : v = fp p s
    · simp [hv]
    · simp [hv]

theorem combinePrev_clean (own prev : StepStatus)
    (h : combinePrev own prev = .clean) :
    own = .clean ∧ prev = .clean := by
  cases own <;> cases prev <;> simp_all [combinePrev]

/-- A chain whose every step records the current fingerprint is CLEAN. -/
theorem statusOfChain_clean (store : Store) (fp : Fingerprint) (p : String)
    (steps : List Step) (h : ∀ t ∈ steps, goodAt store fp p t) :
    statusOfChain store fp p steps = .clean := by
  induction steps with
  | nil => rfl
  | cons t ts ih =>
    have hm : matchStatus store fp p t = .clean :=
      (matchStatus_clean_iff store fp p t).mpr (h t (by simp))
    unfold statusOfChain at ih ⊢
    rw [List.foldl_cons, hm]
    exact ih fun u hu => h u (by simp [hu])

theorem selfStatus_clean_of_chain (store : Store) (fp : Fingerprint)
    (p : String) (s : Step) (h : ∀ t ∈ stepsUpTo s, goodAt store fp p t) :
    selfStatus store fp p s = .clean :=
  statusOfChain_clean store fp p (stepsUpTo s) h

/-- The step list up to a step always ends with that step. -/
theorem stepsUpTo_concat (s : Step) :
    ∃ pre, stepsUpTo s = pre ++ [s] := by
  cases s
  · exact ⟨[], rfl⟩
  · exact ⟨[.pull], rfl⟩
  · exact ⟨[.pull, .build], rfl⟩
  · exact ⟨[.pull, .build, .stage], rfl⟩

/-- A CLEAN self verdict at a step means that step's own record equals the
current fingerprint. -/
theorem goodAt_of_selfStatus_clean (store : Store) (fp : Fingerprint)
    (p : String) (s : Step) (h : selfStatus store fp p s = .clean) :
    goodAt store fp p s := by
  obtain ⟨pre, hpre⟩ := stepsUpTo_concat s
  unfold selfStatus statusOfChain at h
  rw [hpre, List.foldl_append, List.foldl_cons, List.foldl_nil] at h
  exact (matchStatus_clean_iff store fp p s).mp (combinePrev_clean _ _ h).1

theorem selfStatus_clean_of_evaluate (parts : List String) (store : Store)
    (fp : Fingerprint) (p : String) (s : Step)
    (h : evaluate parts store fp p s = .clean) :
    selfStatus store fp p s = .clean := by
  unfold evaluate at h
  cases hss : selfStatus store fp p s <;> rw [hss] at h <;> exact h

/-- Processing one (part, step) never invalidates a recorded current
fingerprint anywhere in the store. -/
theorem runStepFor_preserves (parts : List String) (fp : Fingerprint)
    (acc : Store × Nat) (p : String) (s : Step) (q : String) (t : Step)
    (h : goodAt acc.1 fp q t) :
    goodAt (runStepFor parts fp acc p s).1 fp q t := by
  unfold runStepFor
  by_cases hc : evaluate parts acc.1 fp p s = .clean
  · simpa [hc] using h
  · simp only [hc, if_false]
    unfold goodAt updateStore
    by_cases hqt : q = p ∧ t = s
    · simp [hqt.1, hqt.2]
    · simpa [hqt] using h

/-- After processing one (part, step), its record equals the fingerprint
of the current inputs: either it already did (skip) or it was just
persisted (execute). -/
theorem runStepFor_establishes (parts : List String) (fp : Fingerprint)
    (acc : Store × Nat) (p : String) (s : Step) :
    goodAt (runStepFor parts fp acc p s).1 fp p s := by
  unfold runStepFor
  by_cases hc : evaluate parts acc.1 fp p s = .clean
  · simp only [hc, if_true]
    exact goodAt_of_selfStatus_clean acc.1 fp p s
      (selfStatus_clean_of_evaluate parts acc.1 fp p s hc)
  · simp only [hc, if_false]
    unfold goodAt updateStore
    simp

/-- Folding a part's steps: previously good records stay good, and every
processed step's record is good afterwards. -/
theorem runSteps_good (parts : List String) (fp : Fingerprint)
    (p : String) (steps : List Step) (acc : Store × Nat) :
    (∀ q t, goodAt acc.1 fp q t →
      goodAt ((steps.foldl (fun a s => runStepFor parts fp a p s) acc)).1
        fp q t) ∧
    (∀ s ∈ steps,
      goodAt ((steps.foldl (fun a s => runStepFor parts fp a p s) acc)).1
        fp p s) := by
  induction steps generalizing acc with
  | nil => exact ⟨fun q t h => h, by simp⟩
  | cons s ts ih =>
    rw [List.foldl_cons]
    refine ⟨?_, ?_⟩
    · intro q t h
      exact (ih (runStepFor parts fp acc p s)).1 q t
        (runStepFor_preserves parts fp acc p s q t h)
    · intro s' hs'
      rcases List.mem_cons.mp hs' with rfl | hts
      · exact (ih (runStepFor parts fp acc p s')).1 p s'
          (runStepFor_establishes parts fp acc p s')
      · exact (ih (runStepFor parts fp acc p s)).2 s' hts

/-- Folding the part list: previously good records stay good, and every
processed (part, step ≤ requested) record is good afterwards. -/
theorem runParts_good (parts : List String) (fp : Fingerprint)
    (upTo : Step) (ps : List String) (acc : Store × Nat) :
    (∀ q t, goodAt acc.1 fp q t →
      goodAt ((ps.foldl (fun a p => runPart parts fp a p upTo) acc)).1
        fp q t) ∧
    (∀ p ∈ ps, ∀ s ∈ stepsUpTo upTo,
      goodAt ((ps.foldl (fun a p => runPart parts fp a p upTo) acc)).1
        fp p s) := by
  induction ps generalizing acc with
  | nil => exact ⟨fun q t h => h, by simp⟩
  | cons p pt ih =>
    rw [List.foldl_cons]
    refine ⟨?_, ?_⟩
    · intro q t h
      exact (ih (runPart parts fp acc p upTo)).1 q t
        ((runSteps_good parts fp p (stepsUpTo upTo) acc).1 q t h)
    · intro p' hp' s hs
      rcases List.mem_cons.mp hp' with rfl | hpt
      · exact (ih (runPart parts fp acc p' upTo)).1 p' s
          ((runSteps_good parts fp p' (stepsUpTo upTo) acc).2 s hs)
      · exact (ih (runPart parts fp acc p upTo)).2 p' hpt s hs

/-- After a run, every processed (part, step) records the fingerprint of
the current inputs. -/
theorem run_good (parts : List String) (fp : Fingerprint) (store : Store)
    (upTo : Step) :
    ∀ p ∈ parts, ∀ s ∈ stepsUpTo upTo,
      goodAt (run parts fp store upTo).1 fp p s :=
  (runParts_good parts fp upTo parts (store, 0)).2

/-- The chain below a step processed by the run is itself processed. -/
theorem stepsUpTo_closed (upTo s : Step) (hs : s ∈ stepsUpTo upTo) :
    ∀ t ∈ stepsUpTo s, t ∈ stepsUpTo upTo := by
  intro t ht
  cases upTo <;> cases s <;> simp_all [stepsUpTo] <;> tauto

/-- When every part's whole processed chain records current fingerprints,
the evaluator reports CLEAN — including the STAGE/PRIME cross-part merge
check. -/
theorem evaluate_clean_of_allgood (parts : List String) (store : Store)
    (fp : Fingerprint) (p : String) (s : Step)
    (hall : ∀ q ∈ parts, ∀ t ∈ stepsUpTo s, goodAt store fp q t)
    (hp : ∀ t ∈ stepsUpTo s, goodAt store fp p t) :
    evaluate parts store fp p s = .clean := by
  have hself : selfStatus store fp p s = .clean :=
    selfStatus_clean_of_chain store fp p s hp
  have hany : (parts.any fun q =>
      decide (q ≠ p) && decide (selfStatus store fp q s ≠ StepStatus.clean))
      = false := by
    rw [List.any_eq_false]
    intro q hq
    have hc : selfStatus store fp q s = .clean :=
      selfStatus_clean_of_chain store fp q s (hall q hq)
    simp [hc]
  simp only [evaluate, hself]
  rw [hany]
  simp

/-- A run in which the evaluator reports CLEAN everywhere executes
nothing: zero invocations, store untouched. -/
theorem runSteps_of_clean (parts : List String) (fp : Fingerprint)
    (p : String) (store : Store) (n : Nat) (steps : List Step)
    (h : ∀ s ∈ steps, evaluate parts store fp p s = .clean) :
    steps.foldl (fun a s => runStepFor parts fp a p s) (store, n) =
      (store, n) := by
  induction steps with
  | nil => rfl
  | cons s ts ih =>
    rw [List.foldl_cons]
    have hs : runStepFor parts fp (store, n) p s = (store, n) := by
      unfold runStepFor
      simp [h s (by simp)]
    rw [hs]
    exact ih fun u hu => h u (by simp [hu])

theorem runParts_of_clean (parts : List String) (fp : Fingerprint)
    (store : Store) (n : Nat) (upTo : Step) (ps : List String)
    (h : ∀ p ∈ ps, ∀ s ∈ stepsUpTo upTo,
      evaluate parts store fp p s = .clean) :
    ps.foldl (fun a p => runPart parts fp a p upTo) (store, n) =
      (store, n) := by
  induction ps with
  | nil => rfl
  | cons p pt ih =>
    rw [List.foldl_cons]
    have hp : runPart parts fp (store, n) p upTo = (store, n) :=
      runSteps_of_clean parts fp p store n (stepsUpTo upTo)
        (h p (by simp))
    rw [hp]
    exact ih fun q hq => h q (by simp [hq])

/-- A run over an everywhere-CLEAN store executes nothing and leaves the
store untouched. -/
theorem run_of_clean (parts : List String) (fp : Fingerprint)
    (store : Store) (upTo : Step)
    (h : ∀ p ∈ parts, ∀ s ∈ stepsUpTo upTo,
      evaluate parts store fp p s = .clean) :
    run parts fp store upTo = (store, 0) :=
  runParts_of_clean parts fp store 0 upTo parts h

/-- C5 (spec model): idempotence of the lifecycle run: running the same
requested step twice in succession with no input changes performs zero
Build Strategy invocations on the second run, and on that second run every
part's every processed step evaluates CLEAN — a step whose
fingerprint-equal prior state exists and whose dependencies are all CLEAN
is never rerun. -/
theorem lifecycle_run_idempotent (parts : List String) (fp : Fingerprint)
    (store0 : Store) (upTo : Step) :
    (run parts fp (run parts fp store0 upTo).1 upTo).2 = 0 ∧
    ∀ p ∈ parts, ∀ s ∈ stepsUpTo upTo,
      evaluate parts (run parts fp store0 upTo).1 fp p s = .clean := by
  have hgood := run_good parts fp store0 upTo
  have hclean : ∀ p ∈ parts, ∀ s ∈ stepsUpTo upTo,
      evaluate parts (run parts fp store0 upTo).1 fp p s = .clean := by
    intro p hp s hs
    refine evaluate_clean_of_allgood parts _ fp p s ?_ ?_
    · intro q hq t ht
      exact hgood q hq t (stepsUpTo_closed upTo s hs t ht)
    · intro t ht
      exact hgood p hp t (stepsUpTo_closed upTo s hs t ht)
  refine ⟨?_, hclean⟩
  rw [run_of_clean parts fp (run parts fp store0 upTo).1 upTo hclean]

/-- C5 witness: two parts, full PRIME run from an empty store: the second
run performs zero invocations and reports CLEAN. -/
theorem lifecycle_run_idempotent_witness :
    (run ["lib", "app"] (fun _ _ => 0)
      (run ["lib", "app"] (fun _ _ => 0) (fun _ _ => none) Step.prime).1
      Step.prime).2 = 0 ∧
    evaluate ["lib", "app"]
      (run ["lib", "app"] (fun _ _ => 0) (fun _ _ => none) Step.prime).1
      (fun _ _ => 0) "app" Step.prime = .clean :=
  ⟨(lifecycle_run_idempotent ["lib", "app"] (fun _ _ => 0)
      (fun _ _ => none) Step.prime).1,
   (lifecycle_run_idempotent ["lib", "app"] (fun _ _ => 0)
      (fun _ _ => none) Step.prime).2 "app" (by simp) Step.prime
     (by simp [stepsUpTo])⟩

end Snapcraft
